import Mathlib

/-!
Verification development for the simple-postgres core (src/src/index.js and
src/src/escape.js): the SQL template compiler, the literal escaper, the
raw-fragment recognition, and the connection/transaction orchestration.

JavaScript values that flow through the template compiler are embedded as the
inductive `JSVal`.  A JS object is modelled by its own enumerable properties
(an association list of name/value pairs), which is exactly the data `typeof`,
property lookup and `Object.keys` observe in the source.  Resolver functions
(`__unsafelyGetRawSql`) are embedded as Lean functions from an opaque
connection handle to the raw SQL string they produce.  JS strings are Lean
`String`s, JS numbers are embedded as `Int` (the claims only concern their
decimal textual form).
-/

/-- Opaque connection handle, passed to raw-fragment resolvers
(`__unsafelyGetRawSql(client)` in src/src/index.js). -/
structure Client where
  id : Nat

/-- Embedding of the JavaScript values the template compiler can see:
null, undefined, booleans, numbers, strings, functions (only resolver
functions occur, typed `Client → String`), plain objects (own enumerable
properties) and arrays. -/
inductive JSVal where
  | vnull : JSVal
  | vundef : JSVal
  | vbool : Bool → JSVal
  | vnum : Int → JSVal
  | vstr : String → JSVal
  | vfun : (Client → String) → JSVal
  | vobj : List (String × JSVal) → JSVal
  | varr : List JSVal → JSVal

instance : Inhabited JSVal := ⟨JSVal.vnull⟩

/-- JavaScript `typeof`. `typeof null` is `"object"`, arrays are objects. -/
def jsTypeof : JSVal → String
  | .vnull => "object"
  | .vundef => "undefined"
  | .vbool _ => "boolean"
  | .vnum _ => "number"
  | .vstr _ => "string"
  | .vfun _ => "function"
  | .vobj _ => "object"
  | .varr _ => "object"

/-- The `v !== null` test of src/src/index.js line 187. -/
def isJsNull : JSVal → Bool
  | .vnull => true
  | _ => false

/-- JavaScript property read `v[key]`: looks the key up among the object's
own enumerable properties, `undefined` otherwise (arrays carry only their
indexed elements in this model). -/
def getProp (v : JSVal) (key : String) : JSVal :=
  match v with
  | .vobj props =>
    match props.lookup key with
    | some x => x
    | none => JSVal.vundef
  | _ => JSVal.vundef

/-- `Object.keys(v).length`: the number of own enumerable properties; for an
array, the number of its elements. -/
def objKeysCount : JSVal → Nat
  | .vobj props => props.length
  | .varr es => es.length
  | _ => 0

/-- The property name carrying the raw-fragment capability. -/
def rawSqlKey : String := "__unsafelyGetRawSql"

/-- src/src/index.js lines 184-191: a value is treated as a RawFragment iff
it is a non-null object, its `__unsafelyGetRawSql` property is a function,
and it has exactly one enumerable key. -/
def canGetRawSqlFrom (v : JSVal) : Bool :=
  jsTypeof v == "object" &&
  !isJsNull v &&
  jsTypeof (getProp v rawSqlKey) == "function" &&
  objKeysCount v == 1

/-- Calling `v.__unsafelyGetRawSql(client)`; only invoked on values for which
`canGetRawSqlFrom` holds, where the property is a function. -/
def resolveRawSql (v : JSVal) (client : Client) : String :=
  match getProp v rawSqlKey with
  | .vfun f => f client
  | _ => ""

mutual
/-- JavaScript string coercion (`sql += val` for a non-fragment segment,
src/src/index.js line 120).  Segments produced by tagged templates are
always strings; the remaining cases model the JS defaults (arrays join
their coerced elements with a comma, functions coerce to source text,
modelled opaquely). -/
def jsToString : JSVal → String
  | .vnull => "null"
  | .vundef => "undefined"
  | .vbool true => "true"
  | .vbool false => "false"
  | .vnum n => toString n
  | .vstr s => s
  | .vfun _ => "function"
  | .vobj _ => "[object Object]"
  | .varr es => jsToStringList es
def jsToStringList : List JSVal → String
  | [] => ""
  | [v] => jsToString v
  | v :: vs => jsToString v ++ "," ++ jsToStringList vs
end

/-- The character loop of `escape.literal` (src/src/escape.js lines 35-47):
walks the string left to right, doubling single quotes and backslashes and
recording whether any backslash occurred.  The accumulated JS string is
embedded as a `List Char`. -/
def literalLoop : List Char → List Char → Bool → List Char × Bool
  | [], escaped, hasBackslash => (escaped, hasBackslash)
  | c :: cs, escaped, hasBackslash =>
    if c = '\'' then literalLoop cs (escaped ++ [c, c]) hasBackslash
    else if c = '\\' then literalLoop cs (escaped ++ [c, c]) true
    else literalLoop cs (escaped ++ [c]) hasBackslash

mutual
/-- `escape.literal` (src/src/escape.js lines 22-53).  Numbers are returned
unquoted (JS returns the number itself, which later string concatenation
renders in decimal; here the decimal form is returned directly), `null`,
`true` and `false` as bare words, arrays as `Array[...]` over the
recursively escaped elements, and strings via `literalLoop`, wrapped in
single quotes and prefixed with `' E'` when a backslash occurred.
Inputs outside the spec's Value domain (undefined, objects, functions) fall
through the string path with no characters, yielding `''`. -/
def literal : JSVal → String
  | .vnum n => toString n
  | .vnull => "null"
  | .vbool true => "true"
  | .vbool false => "false"
  | .varr es => "Array[" ++ literalList es ++ "]"
  | .vstr s =>
    let r := literalLoop s.data ['\''] false
    let escaped := String.mk (r.1 ++ ['\''])
    if r.2 then " E" ++ escaped else escaped
  | _ => "''"
def literalList : List JSVal → String
  | [] => ""
  | [v] => literal v
  | v :: vs => literal v ++ ", " ++ literalList vs
end

/-- The body of the compiler loop of `sqlTemplate` (src/src/index.js lines
106-134), with the mutable `sql` and `params` threaded as accumulators and
the loop index `i` explicit.  At index `i` the loop first appends the
segment `strings[i]` (resolving it when it carries the raw-fragment
capability, line 117), then processes the value `values[i]`: a RawFragment
is resolved against the client and spliced (line 126), any other value is
pushed onto `params` and `'$' + params.push(val)` — the new 1-based length —
is appended (line 128). -/
def sqlTemplateAux (client : Client) (strings values : List JSVal) (maxLength : Nat)
    (i : Nat) (sql : String) (params : List JSVal) : String × List JSVal :=
  if i < maxLength then
    let sql1 : String :=
      if h : i < strings.length then
        let val := strings[i]
        if canGetRawSqlFrom val then sql ++ resolveRawSql val client
        else sql ++ jsToString val
      else sql
    let next : String × List JSVal :=
      if h : i < values.length then
        let val := values[i]
        if canGetRawSqlFrom val then (sql1 ++ resolveRawSql val client, params)
        else (sql1 ++ "$" ++ toString (params.length + 1), params ++ [val])
      else (sql1, params)
    sqlTemplateAux client strings values maxLength (i + 1) next.1 next.2
  else
    (sql, params)
termination_by maxLength - i

/-- `sqlTemplate(client, values)` (src/src/index.js lines 106-134): `strings`
is the shifted-off segment list, the loop runs to
`Math.max(strings.length, values.length)` starting from empty `sql` and
`params`. -/
def sqlTemplate (client : Client) (strings values : List JSVal) : String × List JSVal :=
  sqlTemplateAux client strings values (max strings.length values.length) 0 "" []

/-- The resolver loop of `iface.template` (src/src/index.js lines 388-404):
the same index loop, but segments are appended without a raw-fragment check
(line 393) and a non-fragment value is escaped with `iface.escapeLiteral`
(= `escape.literal`, line 399) instead of being parameterized; no `params`
accumulator exists. -/
def templateAux (strings values : List JSVal) (client : Client) (maxLength : Nat)
    (i : Nat) (sql : String) : String :=
  if i < maxLength then
    let sql1 : String :=
      if h : i < strings.length then sql ++ jsToString strings[i] else sql
    let sql2 : String :=
      if h : i < values.length then
        let val := values[i]
        if canGetRawSqlFrom val then sql1 ++ resolveRawSql val client
        else sql1 ++ literal val
      else sql1
    templateAux strings values client maxLength (i + 1) sql2
  else sql
termination_by maxLength - i

/-- `iface.template(strings, ...values)` (src/src/index.js lines 383-406):
builds the RawFragment object whose sole enumerable property
`__unsafelyGetRawSql` is the resolver closure running `templateAux`. -/
def templateFragment (strings values : List JSVal) : JSVal :=
  JSVal.vobj [(rawSqlKey, JSVal.vfun (fun client =>
    templateAux strings values client (max strings.length values.length) 0 ""))]

/-- How `sqlTemplate` renders a segment (src/src/index.js lines 115-121). -/
def renderSegment (client : Client) (val : JSVal) : String :=
  if canGetRawSqlFrom val then resolveRawSql val client else jsToString val

/-- Rendering of a plain interpolated value in `sqlTemplate`: the `n`-th
plain value (0-based) becomes the placeholder number `n + 1`. -/
def phRender (n : Nat) (_ : JSVal) : String := "$" ++ toString (n + 1)

/-- Rendering of a plain interpolated value in a `template` fragment
resolver: the value is escaped with `escape.literal`; the plain-value
counter is ignored. -/
def escRender (_ : Nat) (v : JSVal) : String := literal v

/-- Structural (non-indexed) form of the compiler interleaving: segments and
values are consumed in lockstep, `n` counts the plain values emitted so far.
`renderSeg` renders a segment and `renderPlain` a non-fragment value;
RawFragment values are always resolved against the client and spliced. -/
def interleave (renderSeg : JSVal → String) (renderPlain : Nat → JSVal → String)
    (client : Client) (strings values : List JSVal) (n : Nat) : String :=
  match strings, values with
  | [], [] => ""
  | s :: ss, [] => renderSeg s ++ interleave renderSeg renderPlain client ss [] n
  | [], v :: vs =>
    if canGetRawSqlFrom v then
      resolveRawSql v client ++ interleave renderSeg renderPlain client [] vs n
    else
      renderPlain n v ++ interleave renderSeg renderPlain client [] vs (n + 1)
  | s :: ss, v :: vs =>
    renderSeg s ++
      (if canGetRawSqlFrom v then
        resolveRawSql v client ++ interleave renderSeg renderPlain client ss vs n
      else
        renderPlain n v ++ interleave renderSeg renderPlain client ss vs (n + 1))

/-- The fully plain interleaving `S0 $k S1 $(k+1) ...` used to state claim
C3: segments verbatim, placeholders numbered consecutively from `k`. -/
def numberedInterleave : List String → Nat → String
  | [], _ => ""
  | [s], _ => s
  | s :: rest, k => s ++ "$" ++ toString k ++ numberedInterleave rest (k + 1)

/-- A JavaScript `Error` as observed by the orchestrator: its `name`,
`message` and `stack` strings and the `ABORT_CONNECTION` marker property
(absent ≡ `false`). -/
structure JsError where
  name : String
  message : String
  stack : String
  abortConnection : Bool
deriving DecidableEq

/-- A JavaScript thrown value: an `Error` instance or any other value
(coerced to its string form where the source concatenates it). -/
inductive JsThrown where
  | err : JsError → JsThrown
  | nonError : String → JsThrown
deriving DecidableEq

/-- The coercion `err instanceof Error ? err.message + '\n' + err.stack : err`
of src/src/index.js lines 364-365. -/
def errToString : JsThrown → String
  | .err e => e.message ++ "\n" ++ e.stack
  | .nonError s => s

/-- The test `err instanceof Error && err.ABORT_CONNECTION`
(src/src/index.js line 223). -/
def isAbort : JsThrown → Bool
  | .err e => e.abortConnection
  | .nonError _ => false

/-- The `Cancel` error (src/src/index.js lines 72-78): name `Cancel`,
message `Query cancelled`, no abort marker; the runtime-generated stack is
not observed and is modelled as empty. -/
def cancelError : JsError :=
  { name := "Cancel", message := "Query cancelled", stack := "", abortConnection := false }

/-- The combined error built when rollback itself fails (src/src/index.js
lines 363-371): `new Error('Failed to execute rollback after error\n' + err
+ '\n\n' + rollbackErr)` over the string-coerced original and rollback
errors, with `ABORT_CONNECTION` set. -/
def rollbackFailureError (original rollbackErr : JsThrown) : JsError :=
  { name := "Error"
  , message := "Failed to execute rollback after error\n" ++ errToString original
      ++ "\n\n" ++ errToString rollbackErr
  , stack := ""
  , abortConnection := true }

/-- The promise chain of `transaction(work)` (src/src/index.js lines
340-380), embedded over the outcomes of the four constituent steps:
`query('begin')`, the caller's work, `query('commit')` and
`query('rollback')`.  `inTransaction` is set only once BEGIN has succeeded;
the `onError` handler rethrows untouched before that point, otherwise it
attempts the rollback: a successful rollback rethrows the original error, a
failed rollback throws the `ABORT_CONNECTION`-flagged combined error. -/
def transactionModel {A : Type} (beginR : Except JsThrown Unit) (workR : Except JsThrown A)
    (commitR : Except JsThrown Unit) (rollbackR : Except JsThrown Unit) : Except JsThrown A :=
  match beginR with
  | .error e => .error e
  | .ok _ =>
    let afterCommit : Except JsThrown A :=
      match workR with
      | .error e => .error e
      | .ok a =>
        match commitR with
        | .error e => .error e
        | .ok _ => .ok a
    match afterCommit with
    | .ok a => .ok a
    | .error err =>
      match rollbackR with
      | .ok _ => .error err
      | .error rollbackErr => .error (JsThrown.err (rollbackFailureError err rollbackErr))

/-- What a unit of work does to its pooled connection: `done()` returns it
to the pool, `done(err)` evicts it (src/src/index.js lines 222-228). -/
inductive PoolEvent where
  | release : PoolEvent
  | evict : JsThrown → PoolEvent
deriving DecidableEq

/-- The promise chain of `withConnection` (src/src/index.js lines 193-251),
embedded over the outcome of the connection acquisition and of the work,
together with the `cancelled` flag as sampled at its two check points: in
`onConnect` (line 205, before the work starts) and in `onResult`/`onError`
(lines 213/231, after the work settles).  The returned list records every
`done` call, in order.  When acquisition itself fails no `done` was
captured, so nothing is released; when the work fails with an
`ABORT_CONNECTION`-flagged error the connection is evicted via `done(err)`,
otherwise it is released via `done()`; a set `cancelled` flag turns the
settlement into a `Cancel` rejection after the release. -/
def withConnectionModel {A : Type} (connectR : Except JsThrown Client)
    (work : Client → Except JsThrown A)
    (cancelledBeforeWork cancelledAfterWork : Bool) : Except JsThrown A × List PoolEvent :=
  match connectR with
  | .error e =>
    if cancelledAfterWork then (.error (.err cancelError), []) else (.error e, [])
  | .ok client =>
    if cancelledBeforeWork then
      (.error (.err cancelError), [PoolEvent.release])
    else
      match work client with
      | .ok a =>
        if cancelledAfterWork then (.error (.err cancelError), [PoolEvent.release])
        else (.ok a, [PoolEvent.release])
      | .error e =>
        let ev := if isAbort e then PoolEvent.evict e else PoolEvent.release
        if cancelledAfterWork then (.error (.err cancelError), [ev])
        else (.error e, [ev])

/-- `iface.connection(work)` (src/src/index.js lines 331-339) runs the work
through `withConnection` without the cancellable flag, so the `cancelled`
flag can never be set. -/
def connectionRun {A : Type} (connectR : Except JsThrown Client)
    (work : Client → Except JsThrown A) : Except JsThrown A × List PoolEvent :=
  withConnectionModel connectR work false false

/-- `iface.transaction(work)` (src/src/index.js lines 340-380) is
`connection` applied to the BEGIN/work/COMMIT/ROLLBACK protocol. -/
def transactionRun {A : Type} (connectR : Except JsThrown Client)
    (beginR : Except JsThrown Unit) (workR : Except JsThrown A)
    (commitR : Except JsThrown Unit) (rollbackR : Except JsThrown Unit) :
    Except JsThrown A × List PoolEvent :=
  connectionRun connectR (fun _ => transactionModel beginR workR commitR rollbackR)

/-- Events observable by a single cancellable query (src/src/index.js lines
17-43): a call to `promise.cancel()` (line 36, which sets the `cancelled`
flag; the best-effort `pg_cancel_backend` side query it may issue is
external) and the driver's `onResult` callback firing.  The callback event
carries the settlement the handler would produce when not cancelled (the
result, or the driver error wrapped as a `SqlError`, lines 28-31). -/
inductive QueryEvent (A : Type) where
  | cancelCall : QueryEvent A
  | driverDone : Except JsThrown A → QueryEvent A

/-- The observable state of one cancellable query: whether (and how) its
promise has settled, and the `cancelled` flag. -/
structure QueryState (A : Type) where
  outcome : Option (Except JsThrown A)
  cancelled : Bool

/-- One step of the query's life (src/src/index.js lines 23-41):
`cancel()` sets the flag; the driver callback settles the promise — with a
`Cancel` rejection if the flag is set (line 26-27), with the carried
settlement otherwise — and is ignored if the promise already settled
(a promise settles at most once). -/
def queryStep {A : Type} (s : QueryState A) : QueryEvent A → QueryState A
  | .cancelCall => { s with cancelled := true }
  | .driverDone r =>
    match s.outcome with
    | some _ => s
    | none =>
      { s with outcome := some (if s.cancelled then .error (.err cancelError) else r) }

/-- Running a query against a sequence of events. -/
def runQuery {A : Type} (events : List (QueryEvent A)) (s : QueryState A) : QueryState A :=
  events.foldl queryStep s

/-- A freshly issued query: promise pending, not cancelled. -/
def initialQueryState (A : Type) : QueryState A :=
  { outcome := none, cancelled := false }

/-- The filter keeping the values that are parameterized (pushed onto
`params`) by the compiler: exactly the non-fragment ones. -/
def plainValues (values : List JSVal) : List JSVal :=
  values.filter (fun v => !canGetRawSqlFrom v)

/-- Per-character escaping described by the spec for string literals:
single quotes and backslashes are doubled, all other characters pass
through. -/
def escChar (c : Char) : List Char :=
  if c = '\'' then [c, c] else if c = '\\' then [c, c] else [c]

/-- The spec's comma-joining of already-rendered pieces (`join(', ')`). -/
def commaJoin : List String → String
  | [] => ""
  | [x] => x
  | x :: xs => x ++ ", " ++ commaJoin xs

theorem plainValues_nil : plainValues [] = [] := rfl

theorem plainValues_cons (v : JSVal) (vs : List JSVal) :
    plainValues (v :: vs) =
      if canGetRawSqlFrom v then plainValues vs else v :: plainValues vs := by
  by_cases h : canGetRawSqlFrom v <;> simp [plainValues, List.filter_cons, h]

/-- The compiler loop from index `i` onward computes, relative to the
accumulated `sql` and `params`, the structural interleaving of the remaining
segments and values, with the plain-value counter started at the current
parameter count. -/
theorem sqlTemplateAux_spec (client : Client) (strings values : List JSVal) (m : Nat)
    (hs : strings.length ≤ m) (hv : values.length ≤ m) :
    ∀ fuel i sql params, m - i = fuel →
    sqlTemplateAux client strings values m i sql params
      = (sql ++ interleave (renderSegment client) phRender client
            (strings.drop i) (values.drop i) params.length,
         params ++ plainValues (values.drop i)) := by
  intro fuel
  induction fuel with
  | zero =>
    intro i sql params hfi
    have him : m ≤ i := Nat.le_of_sub_eq_zero hfi
    rw [sqlTemplateAux, if_neg (by omega)]
    rw [List.drop_eq_nil_of_le (le_trans hs him), List.drop_eq_nil_of_le (le_trans hv him)]
    simp [interleave, plainValues]
  | succ fuel ih =>
    intro i sql params hfi
    have him : i < m := by omega
    rw [sqlTemplateAux, if_pos him]
    by_cases hsl : i < strings.length
    · rw [List.drop_eq_getElem_cons hsl]
      by_cases hvl : i < values.length
      · rw [List.drop_eq_getElem_cons hvl]
        by_cases hvf : canGetRawSqlFrom values[i]
        · simp only [dif_pos hsl, dif_pos hvl, hvf, if_true,
            ih (i + 1) _ _ (by omega), interleave, plainValues_cons,
            renderSegment]
          by_cases hsf : canGetRawSqlFrom strings[i] <;>
            simp [hsf, hvf, String.append_assoc]
        · simp only [dif_pos hsl, dif_pos hvl, hvf, if_false, Bool.false_eq_true,
            ih (i + 1) _ _ (by omega), interleave, plainValues_cons,
            renderSegment, phRender, List.length_append, List.length_singleton]
          by_cases hsf : canGetRawSqlFrom strings[i] <;>
            simp [hsf, hvf, String.append_assoc, List.append_assoc]
      · have hvnil : values.drop i = [] := List.drop_eq_nil_of_le (by omega)
        have hvnil' : values.drop (i + 1) = [] := List.drop_eq_nil_of_le (by omega)
        simp only [dif_pos hsl, dif_neg hvl, ih (i + 1) _ _ (by omega),
          hvnil, hvnil', interleave, plainValues_nil, renderSegment]
        by_cases hsf : canGetRawSqlFrom strings[i] <;>
          simp [hsf, String.append_assoc]
    · have hsnil : strings.drop i = [] := List.drop_eq_nil_of_le (by omega)
      have hsnil' : strings.drop (i + 1) = [] := List.drop_eq_nil_of_le (by omega)
      by_cases hvl : i < values.length
      · rw [List.drop_eq_getElem_cons hvl]
        by_cases hvf : canGetRawSqlFrom values[i]
        · simp only [dif_neg hsl, dif_pos hvl, hvf, if_true,
            ih (i + 1) _ _ (by omega), hsnil, hsnil', interleave, plainValues_cons]
          simp [hvf, String.append_assoc]
        · simp only [dif_neg hsl, dif_pos hvl, hvf, if_false, Bool.false_eq_true,
            ih (i + 1) _ _ (by omega), hsnil, hsnil', interleave, plainValues_cons,
            phRender, List.length_append, List.length_singleton]
          simp [hvf, String.append_assoc, List.append_assoc]
      · have hvnil : values.drop i = [] := List.drop_eq_nil_of_le (by omega)
        have hvnil' : values.drop (i + 1) = [] := List.drop_eq_nil_of_le (by omega)
        simp only [dif_neg hsl, dif_neg hvl, ih (i + 1) _ _ (by omega),
          hsnil, hsnil', hvnil, hvnil', interleave, plainValues_nil]

/-- `sqlTemplate` produces the structural interleaving and parameterizes
exactly the non-fragment values, in order. -/
theorem sqlTemplate_spec (client : Client) (strings values : List JSVal) :
    sqlTemplate client strings values
      = (interleave (renderSegment client) phRender client strings values 0,
         plainValues values) := by
  have h := sqlTemplateAux_spec client strings values
    (max strings.length values.length) (le_max_left _ _) (le_max_right _ _)
    (max strings.length values.length - 0) 0 "" [] rfl
  simpa [sqlTemplate] using h

theorem canGetRawSqlFrom_vstr (s : String) : canGetRawSqlFrom (JSVal.vstr s) = false := rfl

theorem canGetRawSqlFrom_mk (f : Client → String) :
    canGetRawSqlFrom (JSVal.vobj [(rawSqlKey, JSVal.vfun f)]) = true := rfl

theorem resolveRawSql_mk (f : Client → String) (client : Client) :
    resolveRawSql (JSVal.vobj [(rawSqlKey, JSVal.vfun f)]) client = f client := rfl

/-- The template-fragment resolver loop from index `i` onward computes the
structural interleaving with plain segments and `escape.literal`-rendered
values; the plain-value counter is irrelevant to it. -/
theorem templateAux_spec (client : Client) (strings values : List JSVal) (m : Nat)
    (hs : strings.length ≤ m) (hv : values.length ≤ m) :
    ∀ fuel i sql n, m - i = fuel →
    templateAux strings values client m i sql
      = sql ++ interleave jsToString escRender client
          (strings.drop i) (values.drop i) n := by
  intro fuel
  induction fuel with
  | zero =>
    intro i sql n hfi
    have him : m ≤ i := Nat.le_of_sub_eq_zero hfi
    rw [templateAux, if_neg (by omega)]
    rw [List.drop_eq_nil_of_le (le_trans hs him), List.drop_eq_nil_of_le (le_trans hv him)]
    simp [interleave]
  | succ fuel ih =>
    intro i sql n hfi
    have him : i < m := by omega
    rw [templateAux, if_pos him]
    by_cases hsl : i < strings.length
    · rw [List.drop_eq_getElem_cons hsl]
      by_cases hvl : i < values.length
      · rw [List.drop_eq_getElem_cons hvl]
        by_cases hvf : canGetRawSqlFrom values[i]
        · simp only [dif_pos hsl, dif_pos hvl, hvf, if_true, interleave]
          rw [ih (i + 1) _ n (by omega)]
          simp [hvf, String.append_assoc]
        · simp only [dif_pos hsl, dif_pos hvl, hvf, if_false, Bool.false_eq_true, interleave]
          rw [ih (i + 1) _ (n + 1) (by omega)]
          simp [hvf, escRender, String.append_assoc]
      · have hvnil : values.drop i = [] := List.drop_eq_nil_of_le (by omega)
        have hvnil' : values.drop (i + 1) = [] := List.drop_eq_nil_of_le (by omega)
        simp only [dif_pos hsl, dif_neg hvl, hvnil, hvnil', interleave]
        rw [ih (i + 1) _ n (by omega)]
        simp [hvnil', interleave, String.append_assoc]
    · have hsnil : strings.drop i = [] := List.drop_eq_nil_of_le (by omega)
      have hsnil' : strings.drop (i + 1) = [] := List.drop_eq_nil_of_le (by omega)
      by_cases hvl : i < values.length
      · rw [List.drop_eq_getElem_cons hvl]
        by_cases hvf : canGetRawSqlFrom values[i]
        · simp only [dif_neg hsl, dif_pos hvl, hvf, if_true, hsnil, hsnil', interleave]
          rw [ih (i + 1) _ n (by omega)]
          simp [hsnil', hvf, String.append_assoc]
        · simp only [dif_neg hsl, dif_pos hvl, hvf, if_false, Bool.false_eq_true,
            hsnil, hsnil', interleave]
          rw [ih (i + 1) _ (n + 1) (by omega)]
          simp [hsnil', hvf, escRender, String.append_assoc]
      · have hvnil : values.drop i = [] := List.drop_eq_nil_of_le (by omega)
        have hvnil' : values.drop (i + 1) = [] := List.drop_eq_nil_of_le (by omega)
        simp only [dif_neg hsl, dif_neg hvl, hsnil, hsnil', hvnil, hvnil', interleave]
        rw [ih (i + 1) _ n (by omega)]
        simp [hsnil', hvnil', interleave]

/-- Resolving the RawFragment built by `iface.template` yields the
structural interleaving with `escape.literal` rendering. -/
theorem templateFragment_resolve (client : Client) (strings values : List JSVal) :
    resolveRawSql (templateFragment strings values) client
      = interleave jsToString escRender client strings values 0 := by
  have h := templateAux_spec client strings values
    (max strings.length values.length) (le_max_left _ _) (le_max_right _ _)
    (max strings.length values.length - 0) 0 "" 0 rfl
  simpa [templateFragment, resolveRawSql, getProp, rawSqlKey] using h

/-- With no values left, the interleaving only renders segments: the
plain-value renderer and counter are irrelevant. -/
theorem interleave_nil_values (renderSeg : JSVal → String)
    (rp rp' : Nat → JSVal → String) (client : Client) :
    ∀ (strings : List JSVal) (n n' : Nat),
    interleave renderSeg rp client strings [] n
      = interleave renderSeg rp' client strings [] n' := by
  intro strings
  induction strings with
  | nil => intro n n'; simp only [interleave]
  | cons s ss ih => intro n n'; simp only [interleave]; rw [ih n n']

/-- Segment renderers that agree on every segment give the same
interleaving. -/
theorem interleave_seg_congr (rs rs' : JSVal → String)
    (rp : Nat → JSVal → String) (client : Client) :
    ∀ (values strings : List JSVal) (n : Nat),
    (∀ s ∈ strings, rs s = rs' s) →
    interleave rs rp client strings values n
      = interleave rs' rp client strings values n := by
  intro values
  induction values with
  | nil =>
    intro strings
    induction strings with
    | nil => intro n _; simp only [interleave]
    | cons s ss ih =>
      intro n hseg
      simp only [interleave]
      rw [hseg s (by simp), ih n (fun x hx => hseg x (by simp [hx]))]
  | cons v vs ih =>
    intro strings n hseg
    cases strings with
    | nil =>
      simp only [interleave]
      by_cases hvf : canGetRawSqlFrom v <;>
        simp only [hvf, if_true, if_false, Bool.false_eq_true] <;>
        rw [ih [] _ (by simp)]
    | cons s ss =>
      simp only [interleave]
      rw [hseg s (by simp)]
      by_cases hvf : canGetRawSqlFrom v <;>
        simp only [hvf, if_true, if_false, Bool.false_eq_true] <;>
        rw [ih ss _ (fun x hx => hseg x (by simp [hx]))]

/-- On string segments, `sqlTemplate`'s segment rendering (which checks for
the raw-fragment capability) coincides with the plain string coercion used
by `iface.template`. -/
theorem renderSegment_vstr (client : Client) (s : String) :
    jsToString (JSVal.vstr s) = renderSegment client (JSVal.vstr s) := by
  simp [renderSegment, canGetRawSqlFrom_vstr, jsToString]

/-- Value lists that agree on fragment positions (same recognition verdict,
and equal fragments) produce identical SQL text under placeholder
rendering: the content of a plain value never reaches the SQL. -/
theorem interleave_value_congr (client : Client) {values values' : List JSVal}
    (h : List.Forall₂ (fun v w => canGetRawSqlFrom v = canGetRawSqlFrom w ∧
        (canGetRawSqlFrom v = true → v = w)) values values') :
    ∀ (strings : List JSVal) (n : Nat),
    interleave (renderSegment client) phRender client strings values n
      = interleave (renderSegment client) phRender client strings values' n := by
  induction h with
  | nil => intro strings n; rfl
  | @cons v w vs ws hhead htail ih =>
    intro strings n
    obtain ⟨h1, h2⟩ := hhead
    cases strings with
    | nil =>
      simp only [interleave]
      by_cases hvf : canGetRawSqlFrom v
      · have hw := h2 hvf
        subst hw
        simp only [hvf, if_true]
        rw [ih [] n]
      · have hvf2 : canGetRawSqlFrom v = false := by simpa using hvf
        have hvf' : canGetRawSqlFrom w = false := h1 ▸ hvf2
        simp only [hvf2, hvf', if_false, Bool.false_eq_true, phRender]
        rw [ih [] (n + 1)]
    | cons s ss =>
      simp only [interleave]
      by_cases hvf : canGetRawSqlFrom v
      · have hw := h2 hvf
        subst hw
        simp only [hvf, if_true]
        rw [ih ss n]
      · have hvf2 : canGetRawSqlFrom v = false := by simpa using hvf
        have hvf' : canGetRawSqlFrom w = false := h1 ▸ hvf2
        simp only [hvf2, hvf', if_false, Bool.false_eq_true, phRender]
        rw [ih ss (n + 1)]

/-- With string segments (always one more than the values, as a tagged
template guarantees) and only plain values, the interleaving is the fully
plain one: segments verbatim, consecutively numbered placeholders between
them. -/
theorem interleave_all_plain (client : Client) :
    ∀ (values : List JSVal) (strings : List String) (n : Nat),
    strings.length = values.length + 1 →
    (∀ v ∈ values, canGetRawSqlFrom v = false) →
    interleave (renderSegment client) phRender client (strings.map JSVal.vstr) values n
      = numberedInterleave strings (n + 1) := by
  intro values
  induction values with
  | nil =>
    intro strings n hlen _
    match strings, hlen with
    | [s], _ =>
      simp [interleave, numberedInterleave, renderSegment, canGetRawSqlFrom_vstr, jsToString]
  | cons v vs ih =>
    intro strings n hlen hplain
    match strings, hlen with
    | s :: r :: rest, hlen =>
      have hvf : canGetRawSqlFrom v = false := hplain v (by simp)
      have ihx := ih (r :: rest) (n + 1) (by simpa using hlen) (fun x hx => hplain x (by simp [hx]))
      simp only [List.map_cons] at ihx
      simp only [List.map_cons, interleave, hvf, if_false, Bool.false_eq_true,
        phRender, numberedInterleave]
      rw [← renderSegment_vstr client s]
      simp only [jsToString]
      rw [ihx]
      simp [String.append_assoc]

/-- The interleaving of a value list containing a RawFragment splits around
that fragment's resolved text: the resolver output appears verbatim in the
produced SQL. -/
theorem interleave_split_at_fragment (renderSeg : JSVal → String)
    (rp : Nat → JSVal → String) (client : Client) (frag : JSVal)
    (hfrag : canGetRawSqlFrom frag = true) :
    ∀ (pre strings post : List JSVal) (n : Nat),
    ∃ before after,
      interleave renderSeg rp client strings (pre ++ frag :: post) n
        = before ++ (resolveRawSql frag client ++ after) := by
  intro pre
  induction pre with
  | nil =>
    intro strings post n
    cases strings with
    | nil =>
      exact ⟨"", interleave renderSeg rp client [] post n, by simp [interleave, hfrag]⟩
    | cons s ss =>
      exact ⟨renderSeg s, interleave renderSeg rp client ss post n, by
        simp [interleave, hfrag, String.append_assoc]⟩
  | cons p pre' ih =>
    intro strings post n
    cases strings with
    | nil =>
      by_cases hpf : canGetRawSqlFrom p
      · obtain ⟨b, a, hba⟩ := ih [] post n
        refine ⟨resolveRawSql p client ++ b, a, ?_⟩
        simp only [List.cons_append, interleave, hpf, if_true]
        rw [hba]
        simp only [String.append_assoc]
      · obtain ⟨b, a, hba⟩ := ih [] post (n + 1)
        have hpf2 : canGetRawSqlFrom p = false := by simpa using hpf
        refine ⟨rp n p ++ b, a, ?_⟩
        simp only [List.cons_append, interleave, hpf2, if_false, Bool.false_eq_true]
        rw [hba]
        simp only [String.append_assoc]
    | cons s ss =>
      by_cases hpf : canGetRawSqlFrom p
      · obtain ⟨b, a, hba⟩ := ih ss post n
        refine ⟨renderSeg s ++ (resolveRawSql p client ++ b), a, ?_⟩
        simp only [List.cons_append, interleave, hpf, if_true]
        rw [hba]
        simp only [String.append_assoc]
      · obtain ⟨b, a, hba⟩ := ih ss post (n + 1)
        have hpf2 : canGetRawSqlFrom p = false := by simpa using hpf
        refine ⟨renderSeg s ++ (rp n p ++ b), a, ?_⟩
        simp only [List.cons_append, interleave, hpf2, if_false, Bool.false_eq_true]
        rw [hba]
        simp only [String.append_assoc]

/-- If from position `n` onward the parameter list `ps` holds exactly the
plain values still to come, rendering each plain value with
`escape.literal` is the same as rendering, at counter `k`, the escaped
parameter `ps[k]`: the template resolver's output is the compiler's output
with each placeholder `$(k+1)` replaced by the escaped literal of the
parameter at index `k`. -/
theorem interleave_esc_eq_params (renderSeg : JSVal → String) (client : Client)
    (ps : List JSVal) :
    ∀ (values strings : List JSVal) (n : Nat),
    ps.drop n = plainValues values →
    interleave renderSeg escRender client strings values n
      = interleave renderSeg (fun k _ => literal (ps.getD k JSVal.vnull))
          client strings values n := by
  intro values
  induction values with
  | nil =>
    intro strings n _
    exact interleave_nil_values renderSeg _ _ client strings n n
  | cons v vs ih =>
    intro strings n hdrop
    by_cases hvf : canGetRawSqlFrom v
    · rw [plainValues_cons, if_pos hvf] at hdrop
      cases strings with
      | nil =>
        simp only [interleave, hvf, if_true]
        rw [ih [] n hdrop]
      | cons s ss =>
        simp only [interleave, hvf, if_true]
        rw [ih ss n hdrop]
    · have hvf2 : canGetRawSqlFrom v = false := by simpa using hvf
      rw [plainValues_cons, if_neg (by simp [hvf2])] at hdrop
      have hn : n < ps.length := by
        by_contra hc
        rw [List.drop_eq_nil_of_le (by omega)] at hdrop
        exact List.cons_ne_nil _ _ hdrop.symm
      have hcons := List.drop_eq_getElem_cons hn
      rw [hdrop] at hcons
      have hv : v = ps[n] := (List.cons.injEq _ _ _ _ ▸ hcons).1
      have ht : ps.drop (n + 1) = plainValues vs := ((List.cons.injEq _ _ _ _ ▸ hcons).2).symm
      have hget : ps.getD n JSVal.vnull = v := by
        rw [List.getD_eq_getElem ps JSVal.vnull hn, hv]
      cases strings with
      | nil =>
        simp only [interleave, hvf2, if_false, Bool.false_eq_true, escRender, hget]
        rw [ih [] (n + 1) ht]
      | cons s ss =>
        simp only [interleave, hvf2, if_false, Bool.false_eq_true, escRender, hget]
        rw [ih ss (n + 1) ht]

/-- The escaping loop appends the per-character escapes to its accumulator
and reports whether a backslash was seen (or the flag was already set). -/
theorem literalLoop_spec : ∀ (cs acc : List Char) (hb : Bool),
    literalLoop cs acc hb = (acc ++ cs.flatMap escChar, hb || decide ('\\' ∈ cs)) := by
  intro cs
  induction cs with
  | nil => intro acc hb; simp [literalLoop]
  | cons c cs ih =>
    intro acc hb
    by_cases h1 : c = '\''
    · subst h1
      rw [literalLoop, if_pos rfl, ih]
      simp [escChar]
    · by_cases h2 : c = '\\'
      · subst h2
        rw [literalLoop, if_neg h1, if_pos rfl, ih]
        simp [escChar]
      · rw [literalLoop, if_neg h1, if_neg h2, ih]
        simp [escChar, h1, h2, Ne.symm h2]

/-- Structural characterization of RawFragment recognition: a value passes
`canGetRawSqlFrom` exactly when it is an object whose own enumerable
properties are the single `__unsafelyGetRawSql` key bound to a function. -/
theorem canGetRawSql_iff (v : JSVal) :
    canGetRawSqlFrom v = true ↔ ∃ f, v = JSVal.vobj [(rawSqlKey, JSVal.vfun f)] := by
  constructor
  · intro h
    cases v with
    | vobj props =>
      have hlen : props.length = 1 := by
        by_contra hne
        have hx : (props.length == 1) = false := by simpa using hne
        simp [canGetRawSqlFrom, objKeysCount, hx] at h
      obtain ⟨⟨k, x⟩, rfl⟩ := List.length_eq_one.mp hlen
      by_cases hk : rawSqlKey = k
      · subst hk
        cases x with
        | vfun f => exact ⟨f, rfl⟩
        | vnull => simp [canGetRawSqlFrom, getProp, List.lookup, jsTypeof] at h
        | vundef => simp [canGetRawSqlFrom, getProp, List.lookup, jsTypeof] at h
        | vbool b => simp [canGetRawSqlFrom, getProp, List.lookup, jsTypeof] at h
        | vnum n => simp [canGetRawSqlFrom, getProp, List.lookup, jsTypeof] at h
        | vstr s => simp [canGetRawSqlFrom, getProp, List.lookup, jsTypeof] at h
        | vobj ps => simp [canGetRawSqlFrom, getProp, List.lookup, jsTypeof] at h
        | varr es => simp [canGetRawSqlFrom, getProp, List.lookup, jsTypeof] at h
      · have hkb : (rawSqlKey == k) = false := by simpa using hk
        simp [canGetRawSqlFrom, getProp, List.lookup, hkb, jsTypeof] at h
    | vnull => simp [canGetRawSqlFrom, isJsNull] at h
    | vundef => simp [canGetRawSqlFrom, jsTypeof] at h
    | vbool b => simp [canGetRawSqlFrom, jsTypeof] at h
    | vnum n => simp [canGetRawSqlFrom, jsTypeof] at h
    | vstr s => simp [canGetRawSqlFrom, jsTypeof] at h
    | vfun f => simp [canGetRawSqlFrom, jsTypeof] at h
    | varr es => simp [canGetRawSqlFrom, getProp, jsTypeof] at h
  · rintro ⟨f, rfl⟩
    rfl

/-- Running a query over concatenated event lists runs them in sequence. -/
theorem runQuery_append {A : Type} (xs ys : List (QueryEvent A)) (s : QueryState A) :
    runQuery (xs ++ ys) s = runQuery ys (runQuery xs s) := by
  simp [runQuery, List.foldl_append]

theorem runQuery_nil {A : Type} (s : QueryState A) : runQuery [] s = s := rfl

theorem runQuery_cons {A : Type} (e : QueryEvent A) (es : List (QueryEvent A))
    (s : QueryState A) : runQuery (e :: es) s = runQuery es (queryStep s e) := rfl

/-- The `cancelled` flag is monotone: once set, no event clears it. -/
theorem runQuery_cancelled_mono {A : Type} :
    ∀ (es : List (QueryEvent A)) (s : QueryState A),
    s.cancelled = true → (runQuery es s).cancelled = true := by
  intro es
  induction es with
  | nil => intro s h; simpa [runQuery] using h
  | cons e es ih =>
    intro s h
    rw [show runQuery (e :: es) s = runQuery es (queryStep s e) from rfl]
    apply ih
    cases e with
    | cancelCall => simp [queryStep]
    | driverDone r =>
      cases ho : s.outcome with
      | none => simp [queryStep, ho, h]
      | some o => simpa [queryStep, ho] using h

/-- A cancel call on an already-cancelled query changes nothing. -/
theorem queryStep_cancel_id {A : Type} (s : QueryState A) (h : s.cancelled = true) :
    queryStep s QueryEvent.cancelCall = s := by
  cases s with
  | mk outcome cancelled =>
    simp at h
    subst h
    rfl

/-- A settled promise stays settled with the same value: later events are
ignored. -/
theorem runQuery_settled {A : Type} :
    ∀ (es : List (QueryEvent A)) (s : QueryState A) (o : Except JsThrown A),
    s.outcome = some o → (runQuery es s).outcome = some o := by
  intro es
  induction es with
  | nil => intro s o h; simpa [runQuery] using h
  | cons e es ih =>
    intro s o h
    rw [show runQuery (e :: es) s = runQuery es (queryStep s e) from rfl]
    apply ih
    cases e with
    | cancelCall => simpa [queryStep] using h
    | driverDone r => simp [queryStep, h]

/-- Events that are all cancel calls never settle the promise. -/
theorem runQuery_cancels_only {A : Type} :
    ∀ (es : List (QueryEvent A)) (s : QueryState A),
    (∀ e ∈ es, e = QueryEvent.cancelCall) →
    (runQuery es s).outcome = s.outcome := by
  intro es
  induction es with
  | nil => intro s _; rfl
  | cons e es ih =>
    intro s hall
    rw [show runQuery (e :: es) s = runQuery es (queryStep s e) from rfl]
    rw [hall e (by simp)]
    rw [ih _ (fun x hx => hall x (by simp [hx]))]
    rfl

/-- After a cancel on a still-pending promise, the only settlement ever
produced is the `Cancel` rejection. -/
theorem runQuery_pending_cancelled {A : Type} :
    ∀ (es : List (QueryEvent A)) (s : QueryState A),
    s.cancelled = true →
    (s.outcome = none ∨ s.outcome = some (.error (.err cancelError))) →
    ((runQuery es s).outcome = none ∨
      (runQuery es s).outcome = some (.error (.err cancelError))) := by
  intro es
  induction es with
  | nil => intro s _ h; simpa [runQuery] using h
  | cons e es ih =>
    intro s hc h
    rw [show runQuery (e :: es) s = runQuery es (queryStep s e) from rfl]
    apply ih
    · cases e with
      | cancelCall => simp [queryStep]
      | driverDone r =>
        cases ho : s.outcome with
        | none => simp [queryStep, ho, hc]
        | some o => simpa [queryStep, ho] using hc
    · cases e with
      | cancelCall => simpa [queryStep] using h
      | driverDone r =>
        cases ho : s.outcome with
        | none => simp [queryStep, ho, hc]
        | some o =>
          rcases h with h | h
          · rw [ho] at h; cases h
          · rw [ho] at h
            simp [queryStep, ho, h]

/-- Appending strings is appending their character lists. -/
theorem string_mk_append (a b : List Char) :
    String.mk a ++ String.mk b = String.mk (a ++ b) := rfl

/-- The recursive escaping of an array's elements is the comma-join of the
individually escaped elements. -/
theorem literalList_eq_commaJoin : ∀ es : List JSVal,
    literalList es = commaJoin (es.map literal) := by
  intro es
  induction es with
  | nil => rfl
  | cons v vs ih =>
    cases vs with
    | nil => simp [literalList, commaJoin]
    | cons w ws =>
      simp only [literalList, List.map_cons, commaJoin]
      simp only [List.map_cons] at ih
      rw [ih]

/-- Claim C1: every interpolated value not recognized as a RawFragment is
parameterized — it is pushed onto `params` (second conjunct: `params` is
exactly the list of non-fragment values, in order) and its content never
reaches the SQL text (first conjunct: the produced SQL is unchanged under
any replacement of the plain values that preserves the recognition verdict
and the fragments).  Only values recognized by `canGetRawSqlFrom` are
spliced raw. -/
theorem sqlTemplate_parameterizes (client : Client) (strings values values' : List JSVal)
    (h : List.Forall₂ (fun v w => canGetRawSqlFrom v = canGetRawSqlFrom w ∧
        (canGetRawSqlFrom v = true → v = w)) values values') :
    (sqlTemplate client strings values).1 = (sqlTemplate client strings values').1 ∧
    (sqlTemplate client strings values).2 = values.filter (fun v => !canGetRawSqlFrom v) := by
  constructor
  · rw [sqlTemplate_spec, sqlTemplate_spec]
    exact interleave_value_congr client h strings 0
  · rw [sqlTemplate_spec]
    rfl

theorem sqlTemplate_parameterizes_witness :
    (sqlTemplate ⟨0⟩ [JSVal.vstr "SELECT id FROM accounts WHERE name = "]
        [JSVal.vstr "alice"]).1
      = (sqlTemplate ⟨0⟩ [JSVal.vstr "SELECT id FROM accounts WHERE name = "]
        [JSVal.vstr "bob; DROP TABLE accounts"]).1 ∧
    (sqlTemplate ⟨0⟩ [JSVal.vstr "SELECT id FROM accounts WHERE name = "]
        [JSVal.vstr "alice"]).2
      = [JSVal.vstr "alice"].filter (fun v => !canGetRawSqlFrom v) :=
  sqlTemplate_parameterizes ⟨0⟩ _ _ _
    (List.Forall₂.cons ⟨rfl, fun hc => absurd hc (by decide)⟩ List.Forall₂.nil)

/-- Claim C2: `escape.literal` renders a number in its numeric textual form
unquoted, `null` as `null`, booleans as `true`/`false`, an array as
`Array[` + the comma-joined recursively escaped elements + `]`, and a
string single-quoted with embedded single quotes and backslashes doubled,
prefixed with a space and `E` exactly when a backslash was present. -/
theorem literal_spec :
    (∀ n : Int, literal (JSVal.vnum n) = toString n) ∧
    literal JSVal.vnull = "null" ∧
    literal (JSVal.vbool true) = "true" ∧
    literal (JSVal.vbool false) = "false" ∧
    (∀ es : List JSVal,
      literal (JSVal.varr es) = "Array[" ++ commaJoin (es.map literal) ++ "]") ∧
    (∀ s : String, literal (JSVal.vstr s) =
      (if '\\' ∈ s.data then " E" else "")
        ++ "'" ++ String.mk (s.data.flatMap escChar) ++ "'") := by
  refine ⟨fun n => rfl, rfl, rfl, rfl, fun es => ?_, fun s => ?_⟩
  · rw [show literal (JSVal.varr es) = "Array[" ++ literalList es ++ "]" from rfl]
    rw [literalList_eq_commaJoin]
  · show (let r := literalLoop s.data ['\''] false
      let escaped := String.mk (r.1 ++ ['\''])
      if r.2 then " E" ++ escaped else escaped) = _
    rw [literalLoop_spec]
    by_cases hb : '\\' ∈ s.data
    · simp only [hb, decide_True, Bool.false_or, if_pos, if_true]
      rw [show (" E" : String) = String.mk [' ', 'E'] from rfl,
        show ("'" : String) = String.mk ['\''] from rfl,
        string_mk_append, string_mk_append, string_mk_append]
      simp
    · simp only [hb, decide_False, Bool.false_or, if_neg, if_false]
      rw [show ("'" : String) = String.mk ['\''] from rfl,
        string_mk_append, string_mk_append]
      simp

/-- Claim C3: compiling a template whose interpolated values are all plain
yields `params` equal to the value list itself (so `params.length = k` and
the placeholder `$n` corresponds to `params` index `n-1`), and SQL that is
the verbatim segments with the placeholders `$1..$k` between them, numbered
in strictly increasing order of first appearance. -/
theorem sqlTemplate_plain_compiles (client : Client) (strings : List String)
    (values : List JSVal)
    (hlen : strings.length = values.length + 1)
    (hplain : ∀ v ∈ values, canGetRawSqlFrom v = false) :
    sqlTemplate client (strings.map JSVal.vstr) values
      = (numberedInterleave strings 1, values) := by
  rw [sqlTemplate_spec]
  have h1 := interleave_all_plain client values strings 0 hlen hplain
  have h2 : plainValues values = values :=
    List.filter_eq_self.mpr (fun v hv => by simp [hplain v hv])
  rw [h1, h2]

theorem sqlTemplate_plain_compiles_witness :
    sqlTemplate ⟨0⟩
        (["SELECT * FROM t WHERE a = ", " AND b = ", ""].map JSVal.vstr)
        [JSVal.vnum 1, JSVal.vstr "x"]
      = (numberedInterleave ["SELECT * FROM t WHERE a = ", " AND b = ", ""] 1,
         [JSVal.vnum 1, JSVal.vstr "x"]) :=
  sqlTemplate_plain_compiles ⟨0⟩ _ _ (by decide) (by decide)

/-- Claim C4: a RawFragment interpolated anywhere among the values
contributes no entry to `params` (the parameters are exactly the plain
values around it) and its resolver's output — produced by calling the
resolver with the active connection — is spliced verbatim into the SQL at
the fragment's position. -/
theorem sqlTemplate_fragment (client : Client) (strings pre post : List JSVal)
    (frag : JSVal) (hfrag : canGetRawSqlFrom frag = true) :
    (sqlTemplate client strings (pre ++ frag :: post)).2
      = (pre ++ post).filter (fun v => !canGetRawSqlFrom v) ∧
    ∃ before after,
      (sqlTemplate client strings (pre ++ frag :: post)).1
        = before ++ (resolveRawSql frag client ++ after) := by
  rw [sqlTemplate_spec]
  constructor
  · simp [plainValues, List.filter_append, List.filter_cons, hfrag]
  · exact interleave_split_at_fragment (renderSegment client) phRender client
      frag hfrag pre strings post 0

theorem sqlTemplate_fragment_witness :
    (sqlTemplate ⟨0⟩ [JSVal.vstr "SELECT ", JSVal.vstr " FROM t WHERE id = "]
        ([] ++ JSVal.vobj [(rawSqlKey, JSVal.vfun (fun _ => "now()"))]
          :: [JSVal.vnum 7])).2
      = ([] ++ [JSVal.vnum 7]).filter (fun v => !canGetRawSqlFrom v) ∧
    ∃ before after,
      (sqlTemplate ⟨0⟩ [JSVal.vstr "SELECT ", JSVal.vstr " FROM t WHERE id = "]
          ([] ++ JSVal.vobj [(rawSqlKey, JSVal.vfun (fun _ => "now()"))]
            :: [JSVal.vnum 7])).1
        = before ++ (resolveRawSql
            (JSVal.vobj [(rawSqlKey, JSVal.vfun (fun _ => "now()"))]) ⟨0⟩ ++ after) :=
  sqlTemplate_fragment ⟨0⟩ _ [] [JSVal.vnum 7] _ (by decide)

/-- Claim C5: when the work (or COMMIT) fails inside the transaction and
ROLLBACK also fails, the operation rejects with the combined error — its
message concatenating the explanatory header, the original error's message
and stack, and the rollback error's message and stack — flagged
`ABORT_CONNECTION`; the release step then evicts the connection from the
pool (`done(err)`) instead of returning it. -/
theorem transaction_rollbackFailure {A : Type} (client : Client)
    (workR : Except JsThrown A) (commitR : Except JsThrown Unit) (e f : JsThrown)
    (hfail : workR = .error e ∨ ∃ a, workR = .ok a ∧ commitR = .error e) :
    transactionRun (.ok client) (.ok ()) workR commitR (.error f)
      = (.error (.err (rollbackFailureError e f)),
         [PoolEvent.evict (.err (rollbackFailureError e f))]) ∧
    (rollbackFailureError e f).message
      = "Failed to execute rollback after error\n" ++ errToString e
        ++ "\n\n" ++ errToString f ∧
    (rollbackFailureError e f).abortConnection = true := by
  refine ⟨?_, rfl, rfl⟩
  rcases hfail with he | ⟨a, ha, hc⟩
  · subst he
    simp [transactionRun, connectionRun, withConnectionModel, transactionModel,
      isAbort, rollbackFailureError]
  · subst ha; subst hc
    simp [transactionRun, connectionRun, withConnectionModel, transactionModel,
      isAbort, rollbackFailureError]

theorem transaction_rollbackFailure_witness :
    transactionRun (A := Unit) (.ok ⟨0⟩) (.ok ())
        (.error (.nonError "work failed")) (.ok ())
        (.error (.nonError "rollback failed"))
      = (.error (.err (rollbackFailureError (.nonError "work failed")
            (.nonError "rollback failed"))),
         [PoolEvent.evict (.err (rollbackFailureError (.nonError "work failed")
            (.nonError "rollback failed")))]) ∧
    (rollbackFailureError (.nonError "work failed") (.nonError "rollback failed")).message
      = "Failed to execute rollback after error\n"
        ++ errToString (.nonError "work failed")
        ++ "\n\n" ++ errToString (.nonError "rollback failed") ∧
    (rollbackFailureError (.nonError "work failed")
        (.nonError "rollback failed")).abortConnection = true :=
  transaction_rollbackFailure ⟨0⟩ _ _ _ _ (Or.inl rfl)

/-- Claim C6: if BEGIN itself fails the error propagates untouched and no
rollback is attempted (the outcome does not depend on the rollback result
at all); if a failure occurs after BEGIN succeeded and the ROLLBACK
succeeds, the original error — not the rollback's result — is re-thrown and
the connection is released normally back to the pool. -/
theorem transaction_beginFail_or_rollbackOk {A : Type} (client : Client)
    (workR : Except JsThrown A) (commitR : Except JsThrown Unit) :
    (∀ (e : JsThrown) (rollbackR rollbackR' : Except JsThrown Unit),
        transactionRun (.ok client) (.error e) workR commitR rollbackR
          = transactionRun (.ok client) (.error e) workR commitR rollbackR' ∧
        (transactionRun (.ok client) (.error e) workR commitR rollbackR).1
          = .error e) ∧
    (∀ e : JsThrown, isAbort e = false →
        (workR = .error e ∨ ∃ a, workR = .ok a ∧ commitR = .error e) →
        transactionRun (.ok client) (.ok ()) workR commitR (.ok ())
          = (.error e, [PoolEvent.release])) := by
  constructor
  · intro e rollbackR rollbackR'
    constructor <;>
      simp [transactionRun, connectionRun, withConnectionModel, transactionModel]
  · intro e habort hfail
    rcases hfail with he | ⟨a, ha, hc⟩
    · subst he
      simp [transactionRun, connectionRun, withConnectionModel, transactionModel, habort]
    · subst ha; subst hc
      simp [transactionRun, connectionRun, withConnectionModel, transactionModel, habort]

theorem transaction_beginFail_or_rollbackOk_witness :
    (transactionRun (A := Unit) (.ok ⟨0⟩) (.error (.nonError "begin failed"))
        (.ok ()) (.ok ()) (.ok ())
      = transactionRun (A := Unit) (.ok ⟨0⟩) (.error (.nonError "begin failed"))
        (.ok ()) (.ok ()) (.error (.nonError "never consulted")) ∧
      (transactionRun (A := Unit) (.ok ⟨0⟩) (.error (.nonError "begin failed"))
        (.ok ()) (.ok ()) (.ok ())).1 = .error (.nonError "begin failed")) ∧
    transactionRun (A := Unit) (.ok ⟨0⟩) (.ok ())
        (.error (.nonError "work failed")) (.ok ()) (.ok ())
      = (.error (.nonError "work failed"), [PoolEvent.release]) :=
  ⟨(transaction_beginFail_or_rollbackOk ⟨0⟩ (.ok ()) (.ok ())).1
      (.nonError "begin failed") (.ok ()) (.error (.nonError "never consulted")),
   (transaction_beginFail_or_rollbackOk ⟨0⟩ (.error (.nonError "work failed")) (.ok ())).2
      (.nonError "work failed") (by decide) (Or.inl rfl)⟩

/-- Claim C7: once a connection has been acquired, it is given back exactly
once on every exit path — success, error and cancellation — via a single
`done` call: a normal release, or an eviction exactly when the propagated
error carries the `ABORT_CONNECTION` flag.  When acquisition failed, no
release happens (nothing was acquired). -/
theorem withConnection_release_discipline {A : Type} (connectR : Except JsThrown Client)
    (work : Client → Except JsThrown A) (cb ca : Bool) :
    ((∃ c, connectR = .ok c) →
        (withConnectionModel connectR work cb ca).2.length = 1 ∧
        ((withConnectionModel connectR work cb ca).2 = [PoolEvent.release] ∨
          ∃ e, (withConnectionModel connectR work cb ca).2 = [PoolEvent.evict e] ∧
            isAbort e = true)) ∧
    ((∃ e, connectR = .error e) →
        (withConnectionModel connectR work cb ca).2 = []) := by
  constructor
  · rintro ⟨c, rfl⟩
    cases cb with
    | true =>
      exact ⟨by simp [withConnectionModel], Or.inl (by simp [withConnectionModel])⟩
    | false =>
      cases hw : work c with
      | ok a =>
        cases ca with
        | true =>
          exact ⟨by simp [withConnectionModel, hw],
            Or.inl (by simp [withConnectionModel, hw])⟩
        | false =>
          exact ⟨by simp [withConnectionModel, hw],
            Or.inl (by simp [withConnectionModel, hw])⟩
      | error e =>
        by_cases habort : isAbort e = true
        · cases ca with
          | true =>
            exact ⟨by simp [withConnectionModel, hw, habort],
              Or.inr ⟨e, by simp [withConnectionModel, hw, habort], habort⟩⟩
          | false =>
            exact ⟨by simp [withConnectionModel, hw, habort],
              Or.inr ⟨e, by simp [withConnectionModel, hw, habort], habort⟩⟩
        · have habort' : isAbort e = false := by simpa using habort
          cases ca with
          | true =>
            exact ⟨by simp [withConnectionModel, hw, habort'],
              Or.inl (by simp [withConnectionModel, hw, habort'])⟩
          | false =>
            exact ⟨by simp [withConnectionModel, hw, habort'],
              Or.inl (by simp [withConnectionModel, hw, habort'])⟩
  · rintro ⟨e, rfl⟩
    cases ca <;> simp [withConnectionModel]

theorem withConnection_release_discipline_witness :
    (withConnectionModel (A := Unit) (.ok ⟨0⟩)
        (fun _ => .error (.nonError "boom")) false false).2.length = 1 ∧
    ((withConnectionModel (A := Unit) (.ok ⟨0⟩)
        (fun _ => .error (.nonError "boom")) false false).2 = [PoolEvent.release] ∨
      ∃ e, (withConnectionModel (A := Unit) (.ok ⟨0⟩)
          (fun _ => .error (.nonError "boom")) false false).2 = [PoolEvent.evict e] ∧
        isAbort e = true) :=
  (withConnection_release_discipline (.ok ⟨0⟩)
      (fun _ => .error (.nonError "boom")) false false).1 ⟨⟨0⟩, rfl⟩

/-- Claim C8: on a cancellable query, a second `cancel()` call changes
nothing (first conjunct: the run with a duplicate cancel equals the run
without it, so both produce the same terminal `Cancel` rejection, and a
cancel arriving after the promise settled is a no-op); a settled promise
keeps its settlement whatever happens later (second conjunct); and once
`cancel()` was called on a still-pending query, the promise settles — as
soon as the driver calls back — with the `Cancel` rejection (third
conjunct), so it is not left pending. -/
theorem query_cancel_semantics {A : Type} :
    (∀ pre mid post : List (QueryEvent A),
        runQuery (pre ++ QueryEvent.cancelCall :: (mid ++ QueryEvent.cancelCall :: post))
            (initialQueryState A)
          = runQuery (pre ++ QueryEvent.cancelCall :: (mid ++ post))
              (initialQueryState A)) ∧
    (∀ (events more : List (QueryEvent A)) (o : Except JsThrown A),
        (runQuery events (initialQueryState A)).outcome = some o →
        (runQuery (events ++ more) (initialQueryState A)).outcome = some o) ∧
    (∀ (pre mid post : List (QueryEvent A)) (r : Except JsThrown A),
        (∀ e ∈ pre, e = QueryEvent.cancelCall) →
        (runQuery
            (pre ++ QueryEvent.cancelCall :: (mid ++ QueryEvent.driverDone r :: post))
            (initialQueryState A)).outcome
          = some (.error (.err cancelError))) := by
  refine ⟨?_, ?_, ?_⟩
  · intro pre mid post
    simp only [runQuery_append, runQuery_cons]
    congr 1
    refine queryStep_cancel_id _ (runQuery_cancelled_mono mid _ ?_)
    simp [queryStep]
  · intro events more o h
    rw [runQuery_append]
    exact runQuery_settled more _ o h
  · intro pre mid post r hall
    simp only [runQuery_append, runQuery_cons]
    have h1 : (runQuery pre (initialQueryState A)).outcome = none := by
      rw [runQuery_cancels_only pre _ hall]; rfl
    have htc : (queryStep (runQuery pre (initialQueryState A))
        QueryEvent.cancelCall).cancelled = true := by
      simp [queryStep]
    have hto : (queryStep (runQuery pre (initialQueryState A))
        QueryEvent.cancelCall).outcome = none := by
      simp [queryStep, h1]
    have h2 := runQuery_pending_cancelled mid _ htc (Or.inl hto)
    have h2c := runQuery_cancelled_mono mid _ htc
    refine runQuery_settled post _ _ ?_
    rcases h2 with h | h
    · simp only [queryStep] at h h2c ⊢
      simp [h, h2c]
    · simp only [queryStep] at h ⊢
      simp [h]

theorem query_cancel_semantics_witness :
    (runQuery
        ([] ++ QueryEvent.cancelCall
          :: ([] ++ QueryEvent.driverDone (Except.ok ()) :: []))
        (initialQueryState Unit)).outcome
      = some (.error (.err cancelError)) :=
  query_cancel_semantics.2.2 [] [] [] (Except.ok ()) (by simp)

/-- Claim C9: the RawFragment built by `template(...)` has a resolver that
performs exactly the same segment/value interleaving as the statement
compiler — the shared skeleton `interleave` — except that a non-fragment
value is rendered with `escape.literal` (`escRender`) instead of being
allocated a positional parameter (`phRender`); consequently its output
equals the compiler's interleaving with the placeholder at counter `k`
replaced by the escaped literal of `params[k]` (1-based `$n` ↦
`params[n-1]`), where `params` is the compiler's parameter list. -/
theorem template_escapes_like_compiler (client : Client) (strings : List String)
    (values : List JSVal) :
    resolveRawSql (templateFragment (strings.map JSVal.vstr) values) client
      = interleave (renderSegment client) escRender client
          (strings.map JSVal.vstr) values 0 ∧
    sqlTemplate client (strings.map JSVal.vstr) values
      = (interleave (renderSegment client) phRender client
          (strings.map JSVal.vstr) values 0,
         plainValues values) ∧
    resolveRawSql (templateFragment (strings.map JSVal.vstr) values) client
      = interleave (renderSegment client)
          (fun k _ => literal
            (((sqlTemplate client (strings.map JSVal.vstr) values).2).getD k JSVal.vnull))
          client (strings.map JSVal.vstr) values 0 := by
  have hseg : ∀ s ∈ strings.map JSVal.vstr, jsToString s = renderSegment client s := by
    intro s hs
    obtain ⟨t, _, rfl⟩ := List.mem_map.mp hs
    exact renderSegment_vstr client t
  have h1 : resolveRawSql (templateFragment (strings.map JSVal.vstr) values) client
      = interleave (renderSegment client) escRender client
          (strings.map JSVal.vstr) values 0 := by
    rw [templateFragment_resolve]
    exact interleave_seg_congr jsToString (renderSegment client) escRender client
      values (strings.map JSVal.vstr) 0 hseg
  refine ⟨h1, sqlTemplate_spec client _ values, ?_⟩
  rw [h1, sqlTemplate_spec]
  exact interleave_esc_eq_params (renderSegment client) client (plainValues values)
    values (strings.map JSVal.vstr) 0 (by rw [List.drop_zero])

/-- Claim C10: RawFragment recognition is purely structural.  A value is
recognized iff it is an object whose own enumerable properties are exactly
the single `__unsafelyGetRawSql` key bound to a function; an object with
that key plus any additional enumerable property is not recognized.
Consequently a caller-constructed object of the exact shape is spliced raw
(its resolver output replaces it in the SQL, no parameter allocated) while
an unrecognized value is parameterized as a plain value. -/
theorem canGetRawSqlFrom_recognition :
    (∀ v : JSVal, canGetRawSqlFrom v = true ↔
        ∃ f, v = JSVal.vobj [(rawSqlKey, JSVal.vfun f)]) ∧
    (∀ props : List (String × JSVal), 2 ≤ props.length →
        canGetRawSqlFrom (JSVal.vobj props) = false) ∧
    (∀ (client : Client) (s : String) (f : Client → String),
        sqlTemplate client [JSVal.vstr s] [JSVal.vobj [(rawSqlKey, JSVal.vfun f)]]
          = (s ++ f client, [])) ∧
    (∀ (client : Client) (s : String) (w : JSVal), canGetRawSqlFrom w = false →
        sqlTemplate client [JSVal.vstr s] [w] = (s ++ "$1", [w])) := by
  refine ⟨canGetRawSql_iff, ?_, ?_, ?_⟩
  · intro props hlen
    have hne : (props.length == 1) = false := by
      have : props.length ≠ 1 := by omega
      simpa using this
    simp [canGetRawSqlFrom, objKeysCount, hne]
  · intro client s f
    rw [sqlTemplate_spec]
    refine Prod.ext ?_ ?_
    · simp [interleave, renderSegment, canGetRawSqlFrom_vstr, canGetRawSqlFrom_mk,
        resolveRawSql_mk, jsToString]
    · simp [plainValues_cons, canGetRawSqlFrom_mk, plainValues_nil]
  · intro client s w hw
    rw [sqlTemplate_spec]
    refine Prod.ext ?_ ?_
    · simp only [interleave, renderSegment, canGetRawSqlFrom_vstr, hw, if_false,
        Bool.false_eq_true, jsToString, phRender]
      show s ++ "$1" = s ++ "$1"
      rfl
    · simp [plainValues_cons, hw, plainValues_nil]

theorem canGetRawSqlFrom_recognition_witness :
    canGetRawSqlFrom (JSVal.vobj [(rawSqlKey, JSVal.vfun (fun _ => "1=1")),
        ("extra", JSVal.vnull)]) = false ∧
    sqlTemplate ⟨0⟩ [JSVal.vstr "WHERE "]
        [JSVal.vobj [(rawSqlKey, JSVal.vfun (fun _ => "1=1")), ("extra", JSVal.vnull)]]
      = ("WHERE " ++ "$1",
         [JSVal.vobj [(rawSqlKey, JSVal.vfun (fun _ => "1=1")), ("extra", JSVal.vnull)]]) :=
  ⟨canGetRawSqlFrom_recognition.2.1 _ (by decide),
   canGetRawSqlFrom_recognition.2.2.2 ⟨0⟩ "WHERE " _ (by decide)⟩
